import Mathlib

/-!
# Verification of the BagelPay TypeScript SDK core

A shallow embedding of the SDK's request/response transcoding and
error-classification layer, together with proofs of the behavioural
claims taken from the design specification.

JavaScript runtime values (as produced by `JSON.parse` and object
literals) are modelled by `JsValue`; JS numbers are restricted to
integers, which covers every value the claims exercise.  Objects are
association lists in insertion order, mirroring how a JS object built
by successive `result[key] = value` assignments behaves for string
keys: assignment to a fresh key appends, assignment to an existing key
overwrites in place.
-/

/-- A JavaScript runtime value (`undefined` is a first-class value,
distinguished from JSON `null`). -/
inductive JsValue where
  | null
  | undef
  | bool (b : Bool)
  | num (n : Int)
  | str (s : String)
  | arr (elems : List JsValue)
  | obj (fields : List (String × JsValue))
deriving Repr

/-- Structural induction for `JsValue`, recursing through the nested
lists of array elements and object field values. -/
theorem JsValue.indOn (motive : JsValue → Prop)
    (hnull : motive .null) (hundef : motive .undef)
    (hbool : ∀ b, motive (.bool b)) (hnum : ∀ n, motive (.num n))
    (hstr : ∀ s, motive (.str s))
    (harr : ∀ xs, (∀ x ∈ xs, motive x) → motive (.arr xs))
    (hobj : ∀ kvs, (∀ p ∈ kvs, motive p.2) → motive (.obj kvs)) :
    ∀ j, motive j
  | .null => hnull
  | .undef => hundef
  | .bool b => hbool b
  | .num n => hnum n
  | .str s => hstr s
  | .arr xs => harr xs (fun x hx =>
      JsValue.indOn motive hnull hundef hbool hnum hstr harr hobj x)
  | .obj kvs => hobj kvs (fun p hp =>
      JsValue.indOn motive hnull hundef hbool hnum hstr harr hobj p.2)
termination_by j => sizeOf j
decreasing_by
  · have := List.sizeOf_lt_of_mem hx
    simp only [JsValue.arr.sizeOf_spec]
    omega
  · have h1 := List.sizeOf_lt_of_mem hp
    have h2 : sizeOf p = 1 + sizeOf p.1 + sizeOf p.2 := by
      cases p
      simp
    simp only [JsValue.obj.sizeOf_spec]
    omega

mutual

def jsBeq : JsValue → JsValue → Bool
  | .null, .null => true
  | .undef, .undef => true
  | .bool a, .bool b => a == b
  | .num a, .num b => a == b
  | .str a, .str b => a == b
  | .arr xs, .arr ys => jsBeqList xs ys
  | .obj xs, .obj ys => jsBeqObj xs ys
  | _, _ => false

def jsBeqList : List JsValue → List JsValue → Bool
  | [], [] => true
  | x :: xs, y :: ys => jsBeq x y && jsBeqList xs ys
  | _, _ => false

def jsBeqObj : List (String × JsValue) → List (String × JsValue) → Bool
  | [], [] => true
  | (k1, v1) :: xs, (k2, v2) :: ys => k1 == k2 && jsBeq v1 v2 && jsBeqObj xs ys
  | _, _ => false

end

theorem jsBeq_refl : ∀ j : JsValue, jsBeq j j = true := by
  intro j
  induction j using JsValue.indOn with
  | hnull => rfl
  | hundef => rfl
  | hbool b => simp [jsBeq]
  | hnum n => simp [jsBeq]
  | hstr s => simp [jsBeq]
  | harr xs ih =>
    simp only [jsBeq]
    induction xs with
    | nil => rfl
    | cons x rest ihr =>
      simp only [jsBeqList, Bool.and_eq_true]
      exact ⟨ih x (by simp), ihr (fun y hy => ih y (by simp [hy]))⟩
  | hobj kvs ih =>
    simp only [jsBeq]
    induction kvs with
    | nil => rfl
    | cons p rest ihr =>
      obtain ⟨k, v⟩ := p
      simp only [jsBeqObj, Bool.and_eq_true]
      exact ⟨⟨by simp, ih (k, v) (by simp)⟩, ihr (fun q hq => ih q (by simp [hq]))⟩

theorem jsBeq_sound : ∀ a b : JsValue, jsBeq a b = true → a = b := by
  intro a
  induction a using JsValue.indOn with
  | hnull => intro b h; cases b <;> simp_all [jsBeq]
  | hundef => intro b h; cases b <;> simp_all [jsBeq]
  | hbool x => intro b h; cases b <;> simp_all [jsBeq]
  | hnum x => intro b h; cases b <;> simp_all [jsBeq]
  | hstr x => intro b h; cases b <;> simp_all [jsBeq]
  | harr xs ih =>
    intro b h
    cases b with
    | arr ys =>
      simp only [jsBeq] at h
      congr 1
      induction xs generalizing ys with
      | nil => cases ys with
        | nil => rfl
        | cons y ys => exact absurd h (by simp [jsBeqList])
      | cons x rest ihr =>
        cases ys with
        | nil => exact absurd h (by simp [jsBeqList])
        | cons y ys =>
          simp only [jsBeqList, Bool.and_eq_true] at h
          have hx := ih x (by simp) y h.1
          have hrest := ihr (fun z hz => ih z (by simp [hz])) ys h.2
          rw [hx, hrest]
    | _ => simp_all [jsBeq]
  | hobj kvs ih =>
    intro b h
    cases b with
    | obj ms =>
      simp only [jsBeq] at h
      congr 1
      induction kvs generalizing ms with
      | nil => cases ms with
        | nil => rfl
        | cons m ms => exact absurd h (by simp [jsBeqObj])
      | cons p rest ihr =>
        obtain ⟨k, v⟩ := p
        cases ms with
        | nil => exact absurd h (by simp [jsBeqObj])
        | cons m ms =>
          obtain ⟨k2, v2⟩ := m
          simp only [jsBeqObj, Bool.and_eq_true] at h
          have hk : k = k2 := by
            have := h.1.1
            simpa using this
          have hv := ih (k, v) (by simp) v2 h.1.2
          have hrest := ihr (fun q hq => ih q (by simp [hq])) ms h.2
          simp only at hv
          rw [hk, hv, hrest]
    | _ => simp_all [jsBeq]

instance : DecidableEq JsValue := fun a b =>
  decidable_of_iff (jsBeq a b = true) ⟨jsBeq_sound a b, fun h => h ▸ jsBeq_refl a⟩

namespace JsValue

/-- JS truthiness: `false`, `0`, `""`, `null` and `undefined` are falsy;
every array and object is truthy. -/
def jsTruthy : JsValue → Bool
  | .null => false
  | .undef => false
  | .bool b => b
  | .num n => n != 0
  | .str s => s != ""
  | .arr _ => true
  | .obj _ => true

/-- JS `a || b` on values. -/
def jsOr (a b : JsValue) : JsValue := if jsTruthy a then a else b

/-- First value bound to `key` in an association list (JS objects never
hold duplicate keys, so the first binding is the binding). -/
def lookupKey : List (String × JsValue) → String → Option JsValue
  | [], _ => none
  | (k, v) :: rest, key => if k = key then some v else lookupKey rest key

/-- Property access `o[key]`: `undefined` when the key is absent or the
receiver is not an object.  (In JS, property access on `null`/`undefined`
throws a `TypeError`; the dispatcher model below handles those receivers
explicitly before reading properties, so this total function is only
relied on for non-nullish receivers.) -/
def getProp (v : JsValue) (key : String) : JsValue :=
  match v with
  | .obj kvs => (lookupKey kvs key).getD .undef
  | _ => .undef

end JsValue

/-! ## Key-case conversion (`ModelUtils.toCamelCase` / `toSnakeCase`)

The source rewrites keys with the regexes `/_([a-z])/g` (snake → camel)
and `/[A-Z]/g` (camel → snake); both character classes are ASCII. -/

def isLowerAscii (ch : Char) : Bool := 97 ≤ ch.toNat && ch.toNat ≤ 122

def isUpperAscii (ch : Char) : Bool := 65 ≤ ch.toNat && ch.toNat ≤ 90

def isDigitAscii (ch : Char) : Bool := 48 ≤ ch.toNat && ch.toNat ≤ 57

def toUpperAscii (ch : Char) : Char := Char.ofNat (ch.toNat - 32)

def toLowerAscii (ch : Char) : Char := Char.ofNat (ch.toNat + 32)

/-- The rewrite `key.replace(/_([a-z])/g, (_, letter) => letter.toUpperCase())`:
left-to-right, non-overlapping replacement of `_x` (`x` ASCII lowercase)
by `X`. -/
def camelChars : List Char → List Char
  | [] => []
  | [c] => [c]
  | c :: d :: rest =>
    if c = '_' && isLowerAscii d then toUpperAscii d :: camelChars rest
    else c :: camelChars (d :: rest)

/-- The rewrite `key.replace(/[A-Z]/g, letter => ...)` of `toSnakeCase`:
every ASCII uppercase letter becomes an underscore plus its lowercase. -/
def snakeChars : List Char → List Char
  | [] => []
  | c :: rest =>
    if isUpperAscii c then '_' :: toLowerAscii c :: snakeChars rest
    else c :: snakeChars rest

def camelKey (s : String) : String := ⟨camelChars s.data⟩

def snakeKey (s : String) : String := ⟨snakeChars s.data⟩

/-! ## The recursive transcoders

`ModelUtils.toCamelCase` and `ModelUtils.toSnakeCase` are the same
traversal with different key rewrites, so the traversal is factored as
`mapKeys`: scalars (and `null`/`undefined`) pass through, arrays map
element-wise, and objects are rebuilt by iterating `Object.entries` and
assigning `result[f key] = recurse value` — modelled by folding `setKey`
over the entries. -/

/-- JS assignment `result[k] = v` on an object represented as an
association list: overwrite in place if `k` is present, else append. -/
def setKey (k : String) (v : JsValue) : List (String × JsValue) → List (String × JsValue)
  | [] => [(k, v)]
  | (k2, v2) :: rest => if k2 = k then (k, v) :: rest else (k2, v2) :: setKey k v rest

mutual

def mapKeys (f : String → String) : JsValue → JsValue
  | .arr xs => .arr (mapKeysList f xs)
  | .obj kvs => .obj (mapKeysObj f [] kvs)
  | v => v

def mapKeysList (f : String → String) : List JsValue → List JsValue
  | [] => []
  | x :: xs => mapKeys f x :: mapKeysList f xs

def mapKeysObj (f : String → String) (acc : List (String × JsValue)) :
    List (String × JsValue) → List (String × JsValue)
  | [] => acc
  | (k, v) :: rest => mapKeysObj f (setKey (f k) (mapKeys f v) acc) rest

end

namespace ModelUtils

/-- Source `ModelUtils.toCamelCase` from `models.ts`. -/
def toCamelCase : JsValue → JsValue := mapKeys camelKey

/-- Source `ModelUtils.toSnakeCase` from `models.ts`. -/
def toSnakeCase : JsValue → JsValue := mapKeys snakeKey

end ModelUtils

/-! ## Round-trip of the key rewrites on snake_case identifiers -/

/-- Characters a valid word-separated-lowercase (snake_case) identifier
may contain: ASCII lowercase letters, ASCII digits, underscores. -/
def validSnakeChar (ch : Char) : Bool := isLowerAscii ch || isDigitAscii ch || ch == '_'

def validSnakeKey (s : String) : Bool := s.data.all validSnakeChar

theorem char_toNat_ofNat {n : Nat} (h : n < 55296) : (Char.ofNat n).toNat = n := by
  have hv : Nat.isValidChar n := Or.inl h
  simp [Char.ofNat, hv, Char.ofNatAux, Char.toNat, UInt32.ofNat', UInt32.toNat,
    BitVec.toNat_ofNatLt]

theorem toNat_toUpperAscii {ch : Char} (h : isLowerAscii ch = true) :
    (toUpperAscii ch).toNat = ch.toNat - 32 := by
  simp only [isLowerAscii, Bool.and_eq_true, decide_eq_true_eq] at h
  exact char_toNat_ofNat (by omega)

theorem isUpperAscii_toUpperAscii {ch : Char} (h : isLowerAscii ch = true) :
    isUpperAscii (toUpperAscii ch) = true := by
  have ht := toNat_toUpperAscii h
  simp only [isLowerAscii, Bool.and_eq_true, decide_eq_true_eq] at h
  simp only [isUpperAscii, ht, Bool.and_eq_true, decide_eq_true_eq]
  omega

theorem toLowerAscii_toUpperAscii {ch : Char} (h : isLowerAscii ch = true) :
    toLowerAscii (toUpperAscii ch) = ch := by
  have ht := toNat_toUpperAscii h
  simp only [isLowerAscii, Bool.and_eq_true, decide_eq_true_eq] at h
  have : (toUpperAscii ch).toNat + 32 = ch.toNat := by omega
  simp only [toLowerAscii, this, Char.ofNat_toNat]

theorem validSnakeChar_not_upper {ch : Char} (h : validSnakeChar ch = true) :
    isUpperAscii ch = false := by
  have hn : ¬ (65 ≤ ch.toNat ∧ ch.toNat ≤ 90) := by
    simp only [validSnakeChar, isLowerAscii, isDigitAscii, Bool.or_eq_true,
      Bool.and_eq_true, decide_eq_true_eq, beq_iff_eq] at h
    rcases h with (h | h) | h
    · omega
    · omega
    · subst h
      decide
  rw [Bool.eq_false_iff]
  intro hu
  simp only [isUpperAscii, Bool.and_eq_true, decide_eq_true_eq] at hu
  exact hn hu

/-- Converting a snake_case key to camel case and back is the identity
at the character level. -/
theorem snakeChars_camelChars :
    ∀ l : List Char, (∀ c ∈ l, validSnakeChar c = true) → snakeChars (camelChars l) = l
  | [], _ => rfl
  | [c], h => by
    have hc := validSnakeChar_not_upper (h c (by simp))
    simp [camelChars, snakeChars, hc]
  | c :: d :: rest, h => by
    have hc := validSnakeChar_not_upper (h c (by simp))
    have hd := validSnakeChar_not_upper (h d (by simp))
    by_cases hcd : (c = '_' && isLowerAscii d) = true
    · simp only [camelChars, if_pos hcd]
      simp only [Bool.and_eq_true, decide_eq_true_eq] at hcd
      have hup := isUpperAscii_toUpperAscii hcd.2
      have hlow := toLowerAscii_toUpperAscii hcd.2
      have hrest := snakeChars_camelChars rest (fun x hx => h x (by simp [hx]))
      simp [snakeChars, hup, hlow, hrest, hcd.1]
    · simp only [camelChars, if_neg hcd]
      have htail := snakeChars_camelChars (d :: rest) (fun x hx => h x (by simp [hx]))
      simp [snakeChars, hc, htail]

theorem snakeKey_camelKey {s : String} (h : validSnakeKey s = true) :
    snakeKey (camelKey s) = s := by
  simp only [validSnakeKey, List.all_eq_true] at h
  cases s with
  | mk data =>
    simp only [camelKey, snakeKey]
    exact congrArg String.mk (snakeChars_camelChars data h)

theorem camelKey_injOn {a b : String} (ha : validSnakeKey a = true)
    (hb : validSnakeKey b = true) (h : camelKey a = camelKey b) : a = b := by
  have := congrArg snakeKey h
  rwa [snakeKey_camelKey ha, snakeKey_camelKey hb] at this

/-! ## Rebuilding objects: the entry fold equals a key/value map when the
rewritten keys are pairwise distinct (JS objects never hold duplicate
keys, so with injective key rewrites no assignment ever overwrites). -/

def containsKey (k : String) : List (String × JsValue) → Bool
  | [] => false
  | (k2, _) :: rest => k2 == k || containsKey k rest

def noDupKeys : List (String × JsValue) → Bool
  | [] => true
  | (k, _) :: rest => !containsKey k rest && noDupKeys rest

/-- The key/value map a transcoding pass performs on one object's entries. -/
def pairMap (f : String → String) (g : JsValue → JsValue) :
    List (String × JsValue) → List (String × JsValue) :=
  List.map (fun p => (f p.1, g p.2))

theorem containsKey_append {k : String} (l1 l2 : List (String × JsValue)) :
    containsKey k (l1 ++ l2) = (containsKey k l1 || containsKey k l2) := by
  induction l1 with
  | nil => simp [containsKey]
  | cons p rest ih =>
    obtain ⟨k2, v2⟩ := p
    simp [containsKey, ih, Bool.or_assoc]

theorem containsKey_pairMap {k : String} {f g} :
    ∀ l : List (String × JsValue),
      containsKey k (pairMap f g l) = true ↔ ∃ p ∈ l, f p.1 = k
  | [] => by simp [pairMap, containsKey]
  | (k2, v2) :: rest => by
    have ih := containsKey_pairMap (k := k) (f := f) (g := g) rest
    simp only [pairMap, List.map_cons] at ih ⊢
    simp only [containsKey, Bool.or_eq_true, beq_iff_eq, List.mem_cons]
    rw [ih]
    constructor
    · rintro (h | ⟨p, hp, hf⟩)
      · exact ⟨(k2, v2), Or.inl rfl, h⟩
      · exact ⟨p, Or.inr hp, hf⟩
    · rintro ⟨p, hp | hp, hf⟩
      · subst hp
        exact Or.inl hf
      · exact Or.inr ⟨p, hp, hf⟩

theorem containsKey_of_mem {l : List (String × JsValue)} {p : String × JsValue}
    (hp : p ∈ l) : containsKey p.1 l = true := by
  induction l with
  | nil => cases hp
  | cons q rest ih =>
    obtain ⟨k2, v2⟩ := q
    rcases List.mem_cons.mp hp with h | h
    · subst h
      simp [containsKey]
    · simp [containsKey, ih h]

/-- Assigning a fresh key appends the binding at the end. -/
theorem setKey_eq_append {k : String} {v : JsValue} :
    ∀ {acc : List (String × JsValue)}, containsKey k acc = false →
      setKey k v acc = acc ++ [(k, v)]
  | [], _ => rfl
  | (k2, v2) :: rest, h => by
    simp only [containsKey, Bool.or_eq_false_iff, beq_eq_false_iff_ne, ne_eq] at h
    simp only [setKey, if_neg h.1, List.cons_append, List.cons.injEq, true_and]
    exact setKey_eq_append h.2

/-- Folding assignments over entries whose rewritten keys are fresh and
pairwise distinct builds exactly the key/value map, in entry order. -/
theorem mapKeysObj_eq_map {f : String → String} :
    ∀ (kvs acc : List (String × JsValue)),
      (∀ p ∈ kvs, containsKey (f p.1) acc = false) →
      noDupKeys (pairMap f (mapKeys f) kvs) = true →
      mapKeysObj f acc kvs = acc ++ pairMap f (mapKeys f) kvs
  | [], acc, _, _ => by simp [mapKeysObj, pairMap]
  | (k, v) :: rest, acc, hfresh, hnodup => by
    simp only [pairMap, List.map_cons, noDupKeys, Bool.and_eq_true,
      Bool.not_eq_true'] at hnodup
    have hk : containsKey (f k) acc = false := hfresh (k, v) (by simp)
    have hstep : setKey (f k) (mapKeys f v) acc = acc ++ [(f k, mapKeys f v)] :=
      setKey_eq_append hk
    have hfresh2 : ∀ p ∈ rest, containsKey (f p.1) (acc ++ [(f k, mapKeys f v)]) = false := by
      intro p hp
      rw [containsKey_append]
      have h1 : containsKey (f p.1) acc = false := hfresh p (by simp [hp])
      have h2 : containsKey (f p.1) [(f k, mapKeys f v)] = false := by
        simp only [containsKey, Bool.or_false]
        rw [beq_eq_false_iff_ne]
        intro heq
        have hmem : containsKey (f p.1) (pairMap f (mapKeys f) rest) = true :=
          (containsKey_pairMap rest).mpr ⟨p, hp, rfl⟩
        simp only [pairMap] at hmem
        rw [← heq] at hmem
        have hcontra := hnodup.1
        rw [hmem] at hcontra
        exact Bool.noConfusion hcontra
      simp [h1, h2]
    have ih := mapKeysObj_eq_map rest (acc ++ [(f k, mapKeys f v)]) hfresh2 hnodup.2
    simp only [mapKeysObj, hstep, ih, pairMap, List.append_assoc, List.singleton_append,
      List.map_cons]

/-- Rewritten keys stay pairwise distinct when the rewrite is injective
on the keys present. -/
theorem noDupKeys_pairMap {f : String → String} {g : JsValue → JsValue} :
    ∀ {kvs : List (String × JsValue)}, noDupKeys kvs = true →
      (∀ p ∈ kvs, ∀ q ∈ kvs, f p.1 = f q.1 → p.1 = q.1) →
      noDupKeys (pairMap f g kvs) = true
  | [], _, _ => rfl
  | (k, v) :: rest, hnodup, hinj => by
    simp only [noDupKeys, Bool.and_eq_true, Bool.not_eq_true'] at hnodup
    simp only [pairMap, List.map_cons, noDupKeys, Bool.and_eq_true, Bool.not_eq_true']
    constructor
    · rw [Bool.eq_false_iff]
      intro hcontra
      obtain ⟨p, hp, hf⟩ := (containsKey_pairMap rest).mp hcontra
      have : p.1 = k := hinj p (by simp [hp]) (k, v) (by simp) hf
      have : containsKey k rest = true := this ▸ containsKey_of_mem hp
      rw [this] at hnodup
      exact absurd hnodup.1 (by simp)
    · exact noDupKeys_pairMap hnodup.2
        (fun p hp q hq => hinj p (by simp [hp]) q (by simp [hq]))

/-! ## The round-trip law (spec §8): snake_case-keyed mappings survive
`toInternalForm` followed by `toWireForm` unchanged. -/

mutual

/-- A JS value all of whose object keys (recursively, including inside
arrays) are valid snake_case identifiers; object keys are pairwise
distinct, as they always are for a value produced by `JSON.parse`. -/
def validJs : JsValue → Bool
  | .arr xs => validJsList xs
  | .obj kvs => noDupKeys kvs && validJsObj kvs
  | _ => true

def validJsList : List JsValue → Bool
  | [] => true
  | x :: xs => validJs x && validJsList xs

def validJsObj : List (String × JsValue) → Bool
  | [] => true
  | (k, v) :: rest => validSnakeKey k && validJs v && validJsObj rest

end

theorem mapKeysList_eq_map (f : String → String) :
    ∀ xs : List JsValue, mapKeysList f xs = xs.map (mapKeys f)
  | [] => rfl
  | x :: xs => by simp only [mapKeysList, List.map_cons, mapKeysList_eq_map f xs]

theorem validJsList_mem : ∀ {xs : List JsValue}, validJsList xs = true →
    ∀ x ∈ xs, validJs x = true
  | [], _, x, hx => absurd hx (by simp)
  | y :: ys, h, x, hx => by
    simp only [validJsList, Bool.and_eq_true] at h
    rcases List.mem_cons.mp hx with hx | hx
    · exact hx ▸ h.1
    · exact validJsList_mem h.2 x hx

theorem validJsObj_mem : ∀ {kvs : List (String × JsValue)}, validJsObj kvs = true →
    ∀ p ∈ kvs, validSnakeKey p.1 = true ∧ validJs p.2 = true
  | [], _, p, hp => absurd hp (by simp)
  | (k, v) :: rest, h, p, hp => by
    simp only [validJsObj, Bool.and_eq_true] at h
    rcases List.mem_cons.mp hp with hp | hp
    · exact hp ▸ ⟨h.1.1, h.1.2⟩
    · exact validJsObj_mem h.2 p hp

theorem pairMap_roundtrip :
    ∀ kvs : List (String × JsValue),
      (∀ p ∈ kvs, validSnakeKey p.1 = true ∧
        mapKeys snakeKey (mapKeys camelKey p.2) = p.2) →
      pairMap snakeKey (mapKeys snakeKey) (pairMap camelKey (mapKeys camelKey) kvs) = kvs
  | [], _ => rfl
  | (k, v) :: rest, h => by
    have hk := (h (k, v) (by simp)).1
    have hv := (h (k, v) (by simp)).2
    simp only [pairMap, List.map_cons, List.cons.injEq, Prod.mk.injEq]
    refine ⟨⟨snakeKey_camelKey hk, hv⟩, ?_⟩
    have := pairMap_roundtrip rest (fun p hp => h p (by simp [hp]))
    simpa [pairMap] using this

/-- Spec §8 round-trip law at the value level:
`toWireForm (toInternalForm x) = x` for snake_case-keyed mappings. -/
theorem mapKeys_roundtrip : ∀ j : JsValue, validJs j = true →
    ModelUtils.toSnakeCase (ModelUtils.toCamelCase j) = j := by
  intro j
  induction j using JsValue.indOn with
  | hnull => intro _; rfl
  | hundef => intro _; rfl
  | hbool b => intro _; rfl
  | hnum n => intro _; rfl
  | hstr s => intro _; rfl
  | harr xs ih =>
    intro h
    simp only [validJs] at h
    simp only [ModelUtils.toCamelCase, ModelUtils.toSnakeCase, mapKeys,
      mapKeysList_eq_map, List.map_map]
    have hcongr : ∀ x ∈ xs, (mapKeys snakeKey ∘ mapKeys camelKey) x = id x :=
      fun x hx => ih x hx (validJsList_mem h x hx)
    rw [List.map_congr_left hcongr, List.map_id]
  | hobj kvs ih =>
    intro h
    simp only [validJs, Bool.and_eq_true] at h
    obtain ⟨hnodup, hfields⟩ := h
    have hmem := validJsObj_mem hfields
    have hinjc : ∀ p ∈ kvs, ∀ q ∈ kvs, camelKey p.1 = camelKey q.1 → p.1 = q.1 :=
      fun p hp q hq => camelKey_injOn (hmem p hp).1 (hmem q hq).1
    have hnodupC : noDupKeys (pairMap camelKey (mapKeys camelKey) kvs) = true :=
      noDupKeys_pairMap hnodup hinjc
    have hcamel : mapKeysObj camelKey [] kvs = pairMap camelKey (mapKeys camelKey) kvs := by
      have := mapKeysObj_eq_map kvs [] (fun p _ => rfl) hnodupC
      simpa using this
    have hcomp : pairMap snakeKey (mapKeys snakeKey)
        (pairMap camelKey (mapKeys camelKey) kvs) = kvs :=
      pairMap_roundtrip kvs (fun p hp =>
        ⟨(hmem p hp).1, ih p hp (hmem p hp).2⟩)
    have hnodupS : noDupKeys (pairMap snakeKey (mapKeys snakeKey)
        (pairMap camelKey (mapKeys camelKey) kvs)) = true := by
      rw [hcomp]
      exact hnodup
    have hsnake : mapKeysObj snakeKey [] (pairMap camelKey (mapKeys camelKey) kvs) =
        pairMap snakeKey (mapKeys snakeKey) (pairMap camelKey (mapKeys camelKey) kvs) := by
      have := mapKeysObj_eq_map (pairMap camelKey (mapKeys camelKey) kvs) []
        (fun p _ => rfl) hnodupS
      simpa using this
    simp only [ModelUtils.toCamelCase, ModelUtils.toSnakeCase, mapKeys, hcamel, hsnake, hcomp]

/-! ## String coercion (`value.toString()` on JS values) -/

mutual

/-- JS `v.toString()` for the values the SDK stringifies (query-parameter
values and embedded error codes): numbers print in decimal, strings are
themselves, booleans print as `true`/`false`, arrays join their elements
with commas (with `null`/`undefined` elements printing as the empty
string), objects print as `[object Object]`.  `null`/`undefined`
receivers would throw in JS; every call site below guards them away, so
the total model gives them their `String(...)` forms. -/
def jsToString : JsValue → String
  | .null => "null"
  | .undef => "undefined"
  | .bool b => if b then "true" else "false"
  | .num n => toString n
  | .str s => s
  | .arr xs => jsToStringList xs
  | .obj _ => "[object Object]"
termination_by structural v => v

def jsToStringList : List JsValue → String
  | [] => ""
  | [.null] => ""
  | [.undef] => ""
  | [x] => jsToString x
  | .null :: xs => "," ++ jsToStringList xs
  | .undef :: xs => "," ++ jsToStringList xs
  | x :: xs => jsToString x ++ "," ++ jsToStringList xs
termination_by structural l => l

end

namespace ModelUtils

/-- Source `ModelUtils.createApiError` from `models.ts`:

```ts
return {
  error: data.error || 'Unknown error',
  message: data.msg || data.message || 'An error occurred',
  code: data.code?.toString()
};
```

The result is the JS object literal; `data.code?.toString()` is
`undefined` when the `code` property is absent or nullish. -/
def createApiError (data : JsValue) : JsValue :=
  .obj [
    ("error", JsValue.jsOr (data.getProp "error") (.str "Unknown error")),
    ("message", JsValue.jsOr (data.getProp "msg")
      (JsValue.jsOr (data.getProp "message") (.str "An error occurred"))),
    ("code", match data.getProp "code" with
      | .null => .undef
      | .undef => .undef
      | v => .str (jsToString v))]

/-- Source `ModelUtils.createProduct` from `models.ts`: extract `data.data` when
truthy (the nested payload), else use the whole payload, and transcode to
internal (camel-case) form. -/
def createProduct (data : JsValue) : JsValue :=
  toCamelCase (JsValue.jsOr (data.getProp "data") data)

end ModelUtils

/-! ## The typed error hierarchy (`exceptions.ts`) -/

/-- One constructor per exception class of `exceptions.ts`.
`bagelPayError` is the generic library error (its message is always a
template string built by the client).  The API-error constructors carry
the four `BagelPayAPIError` constructor arguments; arguments the source
does not pass are `JsValue.undef`, matching the omitted (undefined)
optional parameters. -/
inductive SdkError where
  | bagelPayError (message : String)
  | apiError (message : JsValue) (statusCode : JsValue) (errorCode : JsValue)
      (apiErrorPayload : JsValue)
  | authenticationError (message : JsValue) (statusCode : JsValue) (errorCode : JsValue)
      (apiErrorPayload : JsValue)
  | validationError (message : JsValue) (statusCode : JsValue) (errorCode : JsValue)
      (apiErrorPayload : JsValue)
  | notFoundError (message : JsValue) (statusCode : JsValue) (errorCode : JsValue)
      (apiErrorPayload : JsValue)
  | rateLimitError (message : JsValue) (statusCode : JsValue) (errorCode : JsValue)
      (apiErrorPayload : JsValue)
  | serverError (message : JsValue) (statusCode : JsValue) (errorCode : JsValue)
      (apiErrorPayload : JsValue)
deriving Repr, DecidableEq

instance {ε α : Type} [DecidableEq ε] [DecidableEq α] : DecidableEq (Except ε α) :=
  fun a b =>
    match a, b with
    | .ok x, .ok y => decidable_of_iff (x = y) (by simp)
    | .error x, .error y => decidable_of_iff (x = y) (by simp)
    | .ok _, .error _ => isFalse (by simp)
    | .error _, .ok _ => isFalse (by simp)

/-- Holds exactly for the two error shapes the Dispatcher itself
constructs: the generic `BagelPayError` and the base `BagelPayAPIError`. -/
def SdkError.isGenericOrBaseApi : SdkError → Bool
  | .bagelPayError _ => true
  | .apiError _ _ _ _ => true
  | _ => false

/-! ## The HTTP Request Dispatcher (`BagelPayClient.makeRequest`) -/

/-- What the transport (`fetch`) hands back when it resolves: the status
line and the body, the latter given both raw (`response.text()`) and as
the result of `response.json()` (`none` when the body is not JSON). -/
structure HttpResp where
  status : Nat
  statusText : String
  jsonBody : Option JsValue
  rawText : String

/-- One `fetch` attempt: either a resolved response or a thrown/rejected
error with its `name` and `message` (e.g. an abort or a network failure). -/
inductive FetchOutcome where
  | response (r : HttpResp)
  | thrown (name : String) (message : String)

/-- The embedded-failure test on a decoded 2xx payload:
`responseData && typeof responseData === 'object' && 'msg' in responseData
&& 'code' in responseData` and then
`[401, 403, 404, 400, 422, 500].includes(responseData.code)`.
Only a (non-null) object can carry both properties, and `includes` uses
strict equality, so only an exact embedded number matches. -/
def hasEmbeddedFailure (j : JsValue) : Bool :=
  match j with
  | .obj kvs =>
    (JsValue.lookupKey kvs "msg").isSome &&
    (match JsValue.lookupKey kvs "code" with
     | some (.num n) =>
       n == 401 || n == 403 || n == 404 || n == 400 || n == 422 || n == 500
     | some _ => false
     | none => false)
  | _ => false

/-- Response handling (`status >= 400`, and the decode path below 400) and the `< 400` decode path of
`BagelPayClient.makeRequest`, as a function of the resolved response.

On `status >= 400` the body is decoded and classified
(`ModelUtils.createApiError`), and a `BagelPayAPIError(message, status,
code, error)` is thrown; if `response.json()` rejects — or the decoded
payload is `null`, on which the classifier's property accesses throw a
`TypeError` — the catch-all rethrows `HTTP {status}: {statusText}` with
only the status.  On `status < 400`, a decode failure yields the generic
`Invalid JSON response` error; a decoded payload that passes
`hasEmbeddedFailure` is classified and thrown with the embedded code
(`responseData.code || response.status`); otherwise the decoded payload
is returned whole. -/
def processResponse (r : HttpResp) : Except SdkError JsValue :=
  if 400 ≤ r.status then
    match r.jsonBody with
    | some j =>
      if j = .null then
        .error (.apiError (.str ("HTTP " ++ toString r.status ++ ": " ++ r.statusText))
          (.num r.status) .undef .undef)
      else
        let e := ModelUtils.createApiError j
        .error (.apiError (e.getProp "message") (.num r.status) (e.getProp "code") e)
    | none =>
      .error (.apiError (.str ("HTTP " ++ toString r.status ++ ": " ++ r.statusText))
        (.num r.status) .undef .undef)
  else
    match r.jsonBody with
    | some j =>
      if hasEmbeddedFailure j then
        let e := ModelUtils.createApiError j
        .error (.apiError (e.getProp "message")
          (JsValue.jsOr (j.getProp "code") (.num r.status)) (e.getProp "code") e)
      else
        .ok j
    | none => .error (.bagelPayError ("Invalid JSON response: " ++ r.rawText))

/-- Source `BagelPayClient.makeRequest`, as a function of the configured timeout
and the transport outcome.  A thrown error that is already a
`BagelPayError` propagates (covered by `processResponse`); an abort maps
to the timeout message; any other thrown error maps to `Request failed`. -/
def makeRequest (timeout : Int) (outcome : FetchOutcome) : Except SdkError JsValue :=
  match outcome with
  | .response r => processResponse r
  | .thrown name msg =>
    if name = "AbortError" then
      .error (.bagelPayError ("Request timeout after " ++ toString timeout ++ "ms"))
    else
      .error (.bagelPayError ("Request failed: " ++ msg))

/-! ## URL query-parameter building and the Façade (`client.ts`) -/

/-- The query-parameter loop of `makeRequest`:

```ts
Object.entries(params).forEach(([key, value]) => {
  if (value !== undefined && value !== null) {
    url.searchParams.append(key, value.toString());
  }
});
```

yielding the appended `(key, stringified value)` pairs in entry order. -/
def buildQueryParams : List (String × JsValue) → List (String × String)
  | [] => []
  | (k, v) :: rest =>
    match v with
    | .undef => buildQueryParams rest
    | .null => buildQueryParams rest
    | v => (k, jsToString v) :: buildQueryParams rest

namespace BagelPayClient

/-- The constructor line `this.timeout = config.timeout || 30000`:
an absent — or falsy, in particular `0` — configured timeout becomes the
30 000 ms default. -/
def effectiveTimeout (configTimeout : Option Int) : Int :=
  match configTimeout with
  | some t => if t = 0 then 30000 else t
  | none => 30000

/-- The `params` object `BagelPayClient.listProducts` passes to
`makeRequest`; both arguments default (`pageNum = 1, pageSize = 10`). -/
def listProductsParams (pageNum : Int := 1) (pageSize : Int := 10) :
    List (String × JsValue) :=
  [("pageNum", .num pageNum), ("pageSize", .num pageSize)]

/-- Source `BagelPayClient.createProduct`: dispatch the request, then build the
typed `Product` from the decoded payload via `ModelUtils.createProduct`. -/
def createProduct (timeout : Int) (outcome : FetchOutcome) : Except SdkError JsValue :=
  (makeRequest timeout outcome).map ModelUtils.createProduct

end BagelPayClient

/-- A scalar leaf for the transcoders: anything but an array or an
object (numbers, strings, booleans, `null`, `undefined`). -/
def isScalarLeaf : JsValue → Bool
  | .arr _ => false
  | .obj _ => false
  | _ => true

/-! ## Lookup lemmas for transcoded objects -/

theorem lookupKey_mem : ∀ {kvs : List (String × JsValue)} {k : String} {v : JsValue},
    JsValue.lookupKey kvs k = some v → (k, v) ∈ kvs
  | [], _, _, h => by simp [JsValue.lookupKey] at h
  | (k2, v2) :: rest, k, v, h => by
    simp only [JsValue.lookupKey] at h
    by_cases hk : k2 = k
    · rw [if_pos hk] at h
      injection h with h
      subst hk h
      exact List.mem_cons_self _ _
    · rw [if_neg hk] at h
      exact List.mem_cons_of_mem _ (lookupKey_mem h)

/-- Looking a key up through an injectively-rewritten object finds the
rewritten value, provided the rewritten keys are pairwise distinct. -/
theorem lookupKey_pairMap {f : String → String} {g : JsValue → JsValue} :
    ∀ {kvs : List (String × JsValue)} {k : String} {v : JsValue},
      noDupKeys (pairMap f g kvs) = true →
      JsValue.lookupKey kvs k = some v →
      JsValue.lookupKey (pairMap f g kvs) (f k) = some (g v)
  | [], _, _, _, h => by simp [JsValue.lookupKey] at h
  | (k2, v2) :: rest, k, v, hnodup, h => by
    simp only [pairMap, List.map_cons, noDupKeys, Bool.and_eq_true,
      Bool.not_eq_true'] at hnodup
    simp only [JsValue.lookupKey] at h
    by_cases hk : k2 = k
    · rw [if_pos hk] at h
      injection h with h
      subst hk h
      simp [pairMap, JsValue.lookupKey]
    · rw [if_neg hk] at h
      have hmem : containsKey (f k) (pairMap f g rest) = true :=
        (containsKey_pairMap rest).mpr ⟨(k, v), lookupKey_mem h, rfl⟩
      have hne : f k2 ≠ f k := by
        intro heq
        have hcontra := hnodup.1
        simp only [pairMap] at hmem
        rw [← heq] at hmem
        rw [hmem] at hcontra
        exact Bool.noConfusion hcontra
      simp only [pairMap, List.map_cons, JsValue.lookupKey, if_neg hne]
      exact lookupKey_pairMap hnodup.2 h

/-! ## Claim theorems -/

/-- C1 (counterexample): the classifier does NOT prefer `message` over
`msg`.  On the payload `{ message: "A", msg: "B" }` the normalized
message is `"B"` (the `msg` field), not `"A"` as the claim requires:
the source computes `data.msg || data.message || 'An error occurred'`. -/
theorem createApiError_prefers_message_cex :
    (ModelUtils.createApiError
      (.obj [("message", .str "A"), ("msg", .str "B")])).getProp "message" =
        .str "B" ∧
    JsValue.str "B" ≠ JsValue.str "A" := by
  constructor
  · decide
  · decide

/-- C1 (amended): for every decoded failure payload whose `msg` and
`message` fields, when present, are nonempty strings, the normalized
message equals the payload's `msg` field when present, otherwise the
`message` field when present, otherwise the fixed placeholder
`"An error occurred"`; and the normalized `code` is the string form of
the payload's `code` field when that field is present (and not nullish),
otherwise `undefined`. -/
theorem createApiError_message_policy (kvs : List (String × JsValue))
    (hmsg : ∀ v, JsValue.lookupKey kvs "msg" = some v → ∃ s, v = .str s ∧ s ≠ "")
    (hmessage : ∀ v, JsValue.lookupKey kvs "message" = some v → ∃ s, v = .str s ∧ s ≠ "")
    (hcode : ∀ v, JsValue.lookupKey kvs "code" = some v → v ≠ .null ∧ v ≠ .undef) :
    (ModelUtils.createApiError (.obj kvs)).getProp "message" =
      (match JsValue.lookupKey kvs "msg" with
       | some v => v
       | none =>
         match JsValue.lookupKey kvs "message" with
         | some v => v
         | none => .str "An error occurred") ∧
    (ModelUtils.createApiError (.obj kvs)).getProp "code" =
      (match JsValue.lookupKey kvs "code" with
       | some v => .str (jsToString v)
       | none => .undef) := by
  constructor
  · cases hm : JsValue.lookupKey kvs "msg" with
    | some v =>
      obtain ⟨s, rfl, hs⟩ := hmsg v hm
      simp [ModelUtils.createApiError, JsValue.getProp, JsValue.lookupKey,
        JsValue.jsOr, JsValue.jsTruthy, hm, hs]
    | none =>
      cases hm2 : JsValue.lookupKey kvs "message" with
      | some v =>
        obtain ⟨s, rfl, hs⟩ := hmessage v hm2
        simp [ModelUtils.createApiError, JsValue.getProp, JsValue.lookupKey,
          JsValue.jsOr, JsValue.jsTruthy, hm, hm2, hs]
      | none =>
        simp [ModelUtils.createApiError, JsValue.getProp, JsValue.lookupKey,
          JsValue.jsOr, JsValue.jsTruthy, hm, hm2]
  · cases hv : JsValue.lookupKey kvs "code" with
    | some v =>
      obtain ⟨h1, h2⟩ := hcode v hv
      cases v <;>
        simp_all [ModelUtils.createApiError, JsValue.getProp, JsValue.lookupKey]
    | none =>
      simp [ModelUtils.createApiError, JsValue.getProp, JsValue.lookupKey, hv]

/-- Witness for the amended C1 theorem at the payload
`{ msg: "boom", code: 404 }`. -/
theorem createApiError_message_policy_witness :
    (ModelUtils.createApiError
      (.obj [("msg", .str "boom"), ("code", .num 404)])).getProp "message" =
        .str "boom" ∧
    (ModelUtils.createApiError
      (.obj [("msg", .str "boom"), ("code", .num 404)])).getProp "code" =
        .str "404" := by
  have h := createApiError_message_policy [("msg", .str "boom"), ("code", .num 404)]
    (by
      intro v hv
      simp [JsValue.lookupKey] at hv
      exact ⟨"boom", hv.symm, by decide⟩)
    (by
      intro v hv
      simp [JsValue.lookupKey] at hv)
    (by
      intro v hv
      simp [JsValue.lookupKey] at hv
      subst hv
      exact ⟨by decide, by decide⟩)
  obtain ⟨h1, h2⟩ := h
  constructor
  · rw [h1]
    decide
  · rw [h2]
    decide

/-- C2: a 2xx response whose JSON body is an object carrying a `msg`
field and a `code` field with the code in the fixed failure set
{401, 403, 404, 400, 422, 500} is not returned as success: `makeRequest`
classifies the payload and throws a base API error whose status code is
the embedded code. -/
theorem makeRequest_embedded_failure_2xx (timeout : Int) (r : HttpResp)
    (kvs : List (String × JsValue)) (c : Int)
    (hst : 200 ≤ r.status ∧ r.status ≤ 299)
    (hbody : r.jsonBody = some (.obj kvs))
    (hmsg : (JsValue.lookupKey kvs "msg").isSome = true)
    (hcode : JsValue.lookupKey kvs "code" = some (.num c))
    (hset : c = 401 ∨ c = 403 ∨ c = 404 ∨ c = 400 ∨ c = 422 ∨ c = 500) :
    makeRequest timeout (.response r) = .error (.apiError
      ((ModelUtils.createApiError (.obj kvs)).getProp "message") (.num c)
      ((ModelUtils.createApiError (.obj kvs)).getProp "code")
      (ModelUtils.createApiError (.obj kvs))) := by
  have hlt : ¬ 400 ≤ r.status := by omega
  have hcne : c ≠ 0 := by rcases hset with h|h|h|h|h|h <;> omega
  have hemb : hasEmbeddedFailure (.obj kvs) = true := by
    simp only [hasEmbeddedFailure, hmsg, hcode, Bool.true_and]
    rcases hset with h|h|h|h|h|h <;> simp [h]
  simp [makeRequest, processResponse, hlt, hbody, hemb, JsValue.jsOr,
    JsValue.getProp, hcode, JsValue.jsTruthy, hcne]

/-- Witness for C2: transport status 200 with body
`{ "msg": "invalid key", "code": 401 }` yields the classified failure
with status code 401. -/
theorem makeRequest_embedded_failure_2xx_witness :
    makeRequest 30000 (.response ⟨200, "OK",
        some (.obj [("msg", .str "invalid key"), ("code", .num 401)]), "body"⟩) =
      .error (.apiError (.str "invalid key") (.num 401) (.str "401")
        (.obj [("error", .str "Unknown error"), ("message", .str "invalid key"),
          ("code", .str "401")])) := by
  have h := makeRequest_embedded_failure_2xx 30000
    ⟨200, "OK", some (.obj [("msg", .str "invalid key"), ("code", .num 401)]), "body"⟩
    [("msg", .str "invalid key"), ("code", .num 401)] 401
    (by decide) rfl (by decide) rfl (by decide)
  rw [h]
  decide

/-- C9: `listProducts()` with no arguments issues a request whose query
carries `pageNum=1` and `pageSize=10`; in general, query entries whose
value is `null` or `undefined` are omitted and all other entries are
appended string-encoded, in order. -/
theorem listProducts_default_query :
    buildQueryParams BagelPayClient.listProductsParams =
      [("pageNum", "1"), ("pageSize", "10")] ∧
    (∀ k ps, buildQueryParams ((k, .undef) :: ps) = buildQueryParams ps ∧
      buildQueryParams ((k, .null) :: ps) = buildQueryParams ps) ∧
    (∀ k v ps, v ≠ .undef → v ≠ .null →
      buildQueryParams ((k, v) :: ps) = (k, jsToString v) :: buildQueryParams ps) := by
  refine ⟨by decide, fun k ps => ⟨rfl, rfl⟩, fun k v ps h1 h2 => ?_⟩
  cases v <;> simp_all [buildQueryParams]

/-- Witness for C9's general clauses at concrete entries. -/
theorem listProducts_default_query_witness :
    buildQueryParams [("a", .num 3), ("b", .null)] = [("a", "3")] := by
  have h3 := listProducts_default_query.2.2 "a" (.num 3) [("b", .null)]
    (by decide) (by decide)
  have h2 := (listProducts_default_query.2.1 "b" ([] : List (String × JsValue))).2
  rw [h3, h2]
  decide

/-- C10: the constructor's effective timeout is `config.timeout` when
that is a nonzero number and 30 000 otherwise; in particular an
explicitly configured timeout of `0` is replaced by the default. -/
theorem effectiveTimeout_spec :
    (∀ t : Int, t ≠ 0 → BagelPayClient.effectiveTimeout (some t) = t) ∧
    BagelPayClient.effectiveTimeout (some 0) = 30000 ∧
    BagelPayClient.effectiveTimeout none = 30000 := by
  refine ⟨fun t ht => ?_, rfl, rfl⟩
  simp [BagelPayClient.effectiveTimeout, ht]

/-- Witness for C10 at the configured timeout 17. -/
theorem effectiveTimeout_spec_witness :
    BagelPayClient.effectiveTimeout (some 17) = 17 :=
  effectiveTimeout_spec.1 17 (by decide)

/-- C5 (counterexample): on transport status 404 with body
`{ "msg": "not found", "code": 404 }` the thrown API error does carry the
classifier's message `"not found"` and status 404, but its payload slot
holds the classifier's normalized object
`{ error: "Unknown error", message: "not found", code: "404" }` — not the
raw decoded payload, as the claim requires: the source passes `error`
(the normalized object), not `errorData`, as the fourth argument. -/
theorem processResponse_raw_payload_cex :
    processResponse ⟨404, "Not Found",
        some (.obj [("msg", .str "not found"), ("code", .num 404)]), "body"⟩ =
      .error (.apiError (.str "not found") (.num 404) (.str "404")
        (.obj [("error", .str "Unknown error"), ("message", .str "not found"),
          ("code", .str "404")])) ∧
    JsValue.obj [("error", .str "Unknown error"), ("message", .str "not found"),
        ("code", .str "404")] ≠
      JsValue.obj [("msg", .str "not found"), ("code", .num 404)] := by
  constructor
  · decide
  · decide

/-- C5 (amended): for transport status ≥ 400, a body decoding to a JSON
object yields an API error carrying the transport status code, the
classifier's message and code, and the classifier's normalized error
object (not the raw payload); a body that does not decode as JSON yields
an API error carrying only the status code and the raw status text. -/
theorem processResponse_status_classification (r : HttpResp) (h4 : 400 ≤ r.status) :
    (∀ kvs, r.jsonBody = some (.obj kvs) →
      processResponse r = .error (.apiError
        ((ModelUtils.createApiError (.obj kvs)).getProp "message") (.num r.status)
        ((ModelUtils.createApiError (.obj kvs)).getProp "code")
        (ModelUtils.createApiError (.obj kvs)))) ∧
    (r.jsonBody = none →
      processResponse r = .error (.apiError
        (.str ("HTTP " ++ toString r.status ++ ": " ++ r.statusText))
        (.num r.status) .undef .undef)) := by
  constructor
  · intro kvs hbody
    simp [processResponse, h4, hbody]
  · intro hbody
    simp [processResponse, h4, hbody]

/-- Witness for the amended C5 theorem: status 404 with body
`{ "msg": "not found", "code": 404 }` gives message `"not found"` and
status code 404. -/
theorem processResponse_status_classification_witness :
    processResponse ⟨404, "Not Found",
        some (.obj [("msg", .str "not found"), ("code", .num 404)]), "raw"⟩ =
      .error (.apiError (.str "not found") (.num 404) (.str "404")
        (.obj [("error", .str "Unknown error"), ("message", .str "not found"),
          ("code", .str "404")])) := by
  have h := (processResponse_status_classification
    ⟨404, "Not Found", some (.obj [("msg", .str "not found"), ("code", .num 404)]),
      "raw"⟩ (by decide)).1
    [("msg", .str "not found"), ("code", .num 404)] rfl
  rw [h]
  decide

/-- C6: every failure of `makeRequest` is either the generic library
error (`BagelPayError`) or the base API error (`BagelPayAPIError`) —
never one of the five specialized subtypes — and every success returns
the decoded response body whole, never a partially-decoded value. -/
theorem makeRequest_error_discipline (timeout : Int) (outcome : FetchOutcome) :
    (∀ r j, outcome = .response r → makeRequest timeout outcome = .ok j →
      r.jsonBody = some j) ∧
    (∀ e, makeRequest timeout outcome = .error e → e.isGenericOrBaseApi = true) := by
  cases outcome with
  | thrown name msg =>
    constructor
    · intro r j hr
      exact absurd hr (by simp)
    · intro e he
      simp only [makeRequest] at he
      split at he <;> (injection he with h; subst h; rfl)
  | response r =>
    constructor
    · intro r2 j hr hok
      injection hr with hr2
      subst hr2
      cases hb : r.jsonBody with
      | none =>
        simp only [makeRequest, processResponse, hb] at hok
        by_cases h4 : 400 ≤ r.status
        · rw [if_pos h4] at hok
          exact absurd hok (by simp)
        · rw [if_neg h4] at hok
          exact absurd hok (by simp)
      | some j2 =>
        simp only [makeRequest, processResponse, hb] at hok
        by_cases h4 : 400 ≤ r.status
        · rw [if_pos h4] at hok
          by_cases hnull : j2 = .null
          · rw [if_pos hnull] at hok
            exact absurd hok (by simp)
          · rw [if_neg hnull] at hok
            exact absurd hok (by simp)
        · rw [if_neg h4] at hok
          by_cases hemb : hasEmbeddedFailure j2 = true
          · rw [if_pos hemb] at hok
            exact absurd hok (by simp)
          · rw [if_neg hemb] at hok
            injection hok with h
            rw [h]
    · intro e he
      cases hb : r.jsonBody with
      | none =>
        simp only [makeRequest, processResponse, hb] at he
        by_cases h4 : 400 ≤ r.status
        · rw [if_pos h4] at he
          injection he with h
          subst h
          rfl
        · rw [if_neg h4] at he
          injection he with h
          subst h
          rfl
      | some j2 =>
        simp only [makeRequest, processResponse, hb] at he
        by_cases h4 : 400 ≤ r.status
        · rw [if_pos h4] at he
          by_cases hnull : j2 = .null
          · rw [if_pos hnull] at he
            injection he with h
            subst h
            rfl
          · rw [if_neg hnull] at he
            injection he with h
            subst h
            rfl
        · rw [if_neg h4] at he
          by_cases hemb : hasEmbeddedFailure j2 = true
          · rw [if_pos hemb] at he
            injection he with h
            subst h
            rfl
          · rw [if_neg hemb] at he
            exact absurd he (by simp)

/-- Witness for C6: a non-abort transport failure surfaces as the
generic library error, which `isGenericOrBaseApi` accepts. -/
theorem makeRequest_error_discipline_witness :
    SdkError.isGenericOrBaseApi (.bagelPayError "Request failed: boom") = true :=
  (makeRequest_error_discipline 30000 (.thrown "TypeError" "boom")).2
    (.bagelPayError "Request failed: boom") (by decide)

/-- C3: for every JSON-compatible mapping (including nested mappings and
arrays) all of whose keys are valid snake_case identifiers, transcoding
to internal (camel-case) form and back to wire (snake_case) form
reproduces the original value exactly. -/
theorem roundtrip_internal_wire (j : JsValue) (h : validJs j = true) :
    ModelUtils.toSnakeCase (ModelUtils.toCamelCase j) = j :=
  mapKeys_roundtrip j h

/-- Witness for C3 on a nested mapping with snake_case keys. -/
theorem roundtrip_internal_wire_witness :
    validJs (.obj [("product_id", .str "p_1"),
      ("next_billing_amount", .str "9.99"),
      ("items", .arr [.obj [("tax_amount", .num 5)]])]) = true ∧
    ModelUtils.toSnakeCase (ModelUtils.toCamelCase
      (.obj [("product_id", .str "p_1"),
        ("next_billing_amount", .str "9.99"),
        ("items", .arr [.obj [("tax_amount", .num 5)]])])) =
      .obj [("product_id", .str "p_1"),
        ("next_billing_amount", .str "9.99"),
        ("items", .arr [.obj [("tax_amount", .num 5)]])] :=
  ⟨by decide, roundtrip_internal_wire _ (by decide)⟩

/-- C8: the transcoders are total over JS values and alter no scalar
leaf: scalars (including `null`/`undefined`) pass through unchanged,
arrays are transcoded element-wise, and objects are transcoded
recursively key-by-key (stated for objects whose rewritten keys stay
distinct, which is when the JS entry loop performs no overwrite). -/
theorem transcoders_total_structure :
    (∀ j, isScalarLeaf j = true →
      ModelUtils.toCamelCase j = j ∧ ModelUtils.toSnakeCase j = j) ∧
    (∀ xs, ModelUtils.toCamelCase (.arr xs) = .arr (xs.map ModelUtils.toCamelCase) ∧
      ModelUtils.toSnakeCase (.arr xs) = .arr (xs.map ModelUtils.toSnakeCase)) ∧
    (∀ kvs, noDupKeys (pairMap camelKey ModelUtils.toCamelCase kvs) = true →
      ModelUtils.toCamelCase (.obj kvs) =
        .obj (pairMap camelKey ModelUtils.toCamelCase kvs)) ∧
    (∀ kvs, noDupKeys (pairMap snakeKey ModelUtils.toSnakeCase kvs) = true →
      ModelUtils.toSnakeCase (.obj kvs) =
        .obj (pairMap snakeKey ModelUtils.toSnakeCase kvs)) := by
  refine ⟨fun j hj => ?_, fun xs => ⟨?_, ?_⟩, fun kvs h => ?_, fun kvs h => ?_⟩
  · cases j <;>
      simp_all [isScalarLeaf, ModelUtils.toCamelCase, ModelUtils.toSnakeCase, mapKeys]
  · simp [ModelUtils.toCamelCase, mapKeys, mapKeysList_eq_map]
  · simp [ModelUtils.toSnakeCase, mapKeys, mapKeysList_eq_map]
  · simp only [ModelUtils.toCamelCase] at h ⊢
    simp only [mapKeys]
    congr 1
    simpa using mapKeysObj_eq_map kvs [] (fun p _ => rfl) h
  · simp only [ModelUtils.toSnakeCase] at h ⊢
    simp only [mapKeys]
    congr 1
    simpa using mapKeysObj_eq_map kvs [] (fun p _ => rfl) h

/-- Witness for C8 at a scalar, a singleton array and a one-entry object. -/
theorem transcoders_total_structure_witness :
    ModelUtils.toCamelCase (.num 5) = .num 5 ∧
    ModelUtils.toCamelCase (.arr [.obj [("a_b", .bool true)]]) =
      .arr ([JsValue.obj [("a_b", .bool true)]].map ModelUtils.toCamelCase) ∧
    ModelUtils.toCamelCase (.obj [("a_b", .num 1)]) =
      .obj (pairMap camelKey ModelUtils.toCamelCase [("a_b", .num 1)]) := by
  obtain ⟨hs, ha, hoC, _⟩ := transcoders_total_structure
  exact ⟨(hs (.num 5) rfl).1, (ha [.obj [("a_b", .bool true)]]).1,
    hoC [("a_b", .num 1)] (by decide)⟩

/-- C7: a successful `createProduct` call whose decoded 2xx response is a
mapping with a truthy `data` object builds the returned `Product` from
that inner object transcoded to internal form, so its `productId` equals
the wire payload's `product_id`. -/
theorem createProduct_uses_inner_data (timeout : Int) (r : HttpResp)
    (kvs inner : List (String × JsValue)) (pid : String)
    (hst : 200 ≤ r.status ∧ r.status ≤ 299)
    (hbody : r.jsonBody = some (.obj kvs))
    (hemb : hasEmbeddedFailure (.obj kvs) = false)
    (hdata : JsValue.lookupKey kvs "data" = some (.obj inner))
    (hpid : JsValue.lookupKey inner "product_id" = some (.str pid))
    (hnodup : noDupKeys (pairMap camelKey ModelUtils.toCamelCase inner) = true) :
    BagelPayClient.createProduct timeout (.response r) =
      .ok (ModelUtils.createProduct (.obj kvs)) ∧
    (ModelUtils.createProduct (.obj kvs)).getProp "productId" = .str pid := by
  have hlt : ¬ 400 ≤ r.status := by omega
  constructor
  · simp [BagelPayClient.createProduct, makeRequest, processResponse, hlt, hbody, hemb,
      Except.map]
  · simp only [ModelUtils.toCamelCase] at hnodup
    have hgp : (JsValue.obj kvs).getProp "data" = .obj inner := by
      simp [JsValue.getProp, hdata]
    have hor : JsValue.jsOr (.obj inner) (.obj kvs) = .obj inner := rfl
    have hmap : mapKeysObj camelKey [] inner = pairMap camelKey (mapKeys camelKey) inner := by
      simpa using mapKeysObj_eq_map inner [] (fun p _ => rfl) hnodup
    have hpm := lookupKey_pairMap (f := camelKey) (g := mapKeys camelKey) hnodup hpid
    have hck : camelKey "product_id" = "productId" := by decide
    rw [hck] at hpm
    simp only [ModelUtils.createProduct, ModelUtils.toCamelCase, hgp, hor]
    simp only [mapKeys, hmap]
    simp [JsValue.getProp, hpm, mapKeys]

/-- Witness for C7: the end-to-end scenario of spec §8 — a 200 response
with body `{"data": {"product_id": "prod_1", "name": "X"}}` yields a
product whose `productId` is `"prod_1"`. -/
theorem createProduct_uses_inner_data_witness :
    BagelPayClient.createProduct 30000 (.response ⟨200, "OK",
        some (.obj [("data", .obj [("product_id", .str "prod_1"),
          ("name", .str "X")])]), "raw"⟩) =
      .ok (ModelUtils.createProduct (.obj [("data", .obj
        [("product_id", .str "prod_1"), ("name", .str "X")])])) ∧
    (ModelUtils.createProduct (.obj [("data", .obj
        [("product_id", .str "prod_1"), ("name", .str "X")])])).getProp "productId" =
      .str "prod_1" :=
  createProduct_uses_inner_data 30000
    ⟨200, "OK", some (.obj [("data", .obj [("product_id", .str "prod_1"),
      ("name", .str "X")])]), "raw"⟩
    [("data", .obj [("product_id", .str "prod_1"), ("name", .str "X")])]
    [("product_id", .str "prod_1"), ("name", .str "X")] "prod_1"
    (by decide) rfl (by decide) rfl rfl (by decide)
